import Mathlib

/-!
Verification of the hallonbullar GPIO/PWM library (TypeScript, Bun on Linux)
against its natural-language specification.

The development shallowly embeds the relevant parts of the source:

* `src/packages/hallonbullar/src/pwm.ts` — hardware PWM channel lifecycle
  (`PWMChannel.setDutyCycle`, `PWMChannel.setFrequency`, `PWMChannel.close`,
  `PWM.channel`);
* `src/packages/hallonbullar/src/software-pwm.ts` — the software PWM engine
  (`SoftwarePWM.tick`, `setDutyCycle`, `setFrequency`, `close`);
* `src/packages/hallonbullar/src/gpio.ts` — GPIO line handles
  (`GPIO.output`, `GPIO.input`, `GPIOOutput` mutators, `GPIOInput.read`,
  `onEdge`, `offEdge`, `waitForEdge`, the edge-callback dispatch loop, `close`).

JavaScript numbers are modelled as exact rationals (`ℚ`); `Math.round` is
`jsRound` below (round half toward positive infinity, which is JavaScript's
`Math.round` semantics).  Sysfs file writes and kernel FFI calls are recorded
as explicit traces so that ordering claims ("before touching the kernel",
"before marking closed") become statements about those traces.
-/

namespace Hallonbullar

/-- JavaScript `Math.round`: round half toward positive infinity. -/
def jsRound (q : ℚ) : ℤ := ⌊q + 1/2⌋

/-- Error classes of the library, one constructor per distinct throw site
used by the claims (the source throws `Error` objects with these messages). -/
inductive Err
  /-- "Duty cycle must be between 0 and 1" / "Frequency must be greater than 0" -/
  | invalidParameter
  /-- "... has been closed" on a handle -/
  | closedHandle
  /-- "PWM channel n is already in use" -/
  | channelInUse (n : ℕ)
  /-- "Failed to export PWM channel n: ..." -/
  | exportFailed (n : ℕ)
  /-- "Failed to create PWM channel n (timeout)" -/
  | exportTimeout (n : ℕ)
  /-- "Permission denied: Cannot write to .../period ..." -/
  | permissionDenied (n : ℕ)
  /-- "Failed to request GPIO pin p as output/input" -/
  | requestFailed (p : ℕ)
  /-- "Edge detection is not enabled for this input" -/
  | edgeDisabled
  /-- "Error waiting for edge events" -/
  | waitFailed
  /-- "Failed to read GPIO pin p" -/
  | readFailed (p : ℕ)
  /-- "GPIO/PWM controller has been closed" -/
  | controllerClosed
  deriving DecidableEq, Repr

/-! ## Hardware PWM channel (`pwm.ts`, class `PWMChannel`) -/

/-- State of one `PWMChannel` handle together with the sysfs files it writes.
`periodNs` and `dutyCycle` are the private fields `_periodNs` / `_dutyCycle`;
`filePeriod`, `fileDuty`, `fileEnable` are the last values written to the
channel's `period`, `duty_cycle` and `enable` control files.  `lastFreq` is a
ghost field recording the frequency most recently requested (at creation or
via `setFrequency`); the source does not store it (its `frequencyHz` getter
recomputes `1e9 / _periodNs`), and no operation reads it. -/
structure PWMChannelModel where
  channel : ℕ
  periodNs : ℤ
  dutyCycle : ℚ
  closed : Bool
  filePeriod : ℤ
  fileDuty : ℤ
  fileEnable : ℤ
  lastFreq : ℚ
  deriving DecidableEq, Repr

namespace PWMChannelModel

/-- `PWMChannel.setDutyCycle(ratio)`: check closed, validate `0 ≤ ratio ≤ 1`,
write `round(periodNs * ratio)` to the `duty_cycle` file, store the ratio. -/
def setDutyCycle (r : ℚ) (s : PWMChannelModel) : Except Err PWMChannelModel :=
  if s.closed then .error .closedHandle
  else if r < 0 ∨ 1 < r then .error .invalidParameter
  else
    let dutyCycleNs := jsRound (s.periodNs * r)
    .ok { s with fileDuty := dutyCycleNs, dutyCycle := r }

/-- `PWMChannel.setFrequency(frequencyHz)`: check closed, validate `f > 0`,
write `round(1e9 / f)` to the `period` file, then rewrite the `duty_cycle`
file at the new period with the stored ratio, then store the new period. -/
def setFrequency (f : ℚ) (s : PWMChannelModel) : Except Err PWMChannelModel :=
  if s.closed then .error .closedHandle
  else if f ≤ 0 then .error .invalidParameter
  else
    let periodNs := jsRound (1000000000 / f)
    let dutyCycleNs := jsRound ((periodNs : ℚ) * s.dutyCycle)
    .ok { s with filePeriod := periodNs, fileDuty := dutyCycleNs,
                 periodNs := periodNs, lastFreq := f }

end PWMChannelModel

/-- A mutator call on a hardware PWM channel. -/
inductive PWMOp
  | setDuty (r : ℚ)
  | setFreq (f : ℚ)
  deriving DecidableEq, Repr

/-- Apply one mutator; a thrown validation error leaves the state unchanged
(the source validates before performing any write or field update). -/
def applyPWMOp (s : PWMChannelModel) (op : PWMOp) : PWMChannelModel :=
  match op with
  | .setDuty r => ((s.setDutyCycle r).toOption).getD s
  | .setFreq f => ((s.setFrequency f).toOption).getD s

/-- Apply a sequence of mutator calls. -/
def applyPWMOps (ops : List PWMOp) (s : PWMChannelModel) : PWMChannelModel :=
  ops.foldl applyPWMOp s

/-- The specification invariant on a hardware channel: the `duty_cycle` file
holds `round(period * ratio)`, the `period` file holds the stored period, and
the stored period is `round(1e9 / f)` for the last requested frequency. -/
def PWMInv (s : PWMChannelModel) : Prop :=
  s.fileDuty = jsRound ((s.periodNs : ℚ) * s.dutyCycle) ∧
  s.filePeriod = s.periodNs ∧
  s.periodNs = jsRound (1000000000 / s.lastFreq)

instance (s : PWMChannelModel) : Decidable (PWMInv s) := by
  unfold PWMInv; infer_instance

/-- The channel state produced by a successful `PWM.channel(channel, opts)`
call: `periodNs = round(1e9 / frequencyHz)` is computed, the `period` file is
written, then `duty_cycle := round(periodNs * dutyCycle)`, then `enable := 1`.
(The full acquisition pipeline with export handling is `pwmAcquire` below;
this is the state it returns on success.) -/
def channelInitState (channel : ℕ) (frequencyHz dutyCycle : ℚ) : PWMChannelModel :=
  let periodNs := jsRound (1000000000 / frequencyHz)
  { channel := channel
    periodNs := periodNs
    dutyCycle := dutyCycle
    closed := false
    filePeriod := periodNs
    fileDuty := jsRound ((periodNs : ℚ) * dutyCycle)
    fileEnable := 1
    lastFreq := frequencyHz }

/-- One mutator application preserves the invariant (validation failures and
closed-handle failures leave the state untouched; successful calls re-derive
the duty file from the current period and the new ratio, respectively rewrite
period and duty together). -/
theorem pwmInv_applyPWMOp (s : PWMChannelModel) (op : PWMOp) (h : PWMInv s) :
    PWMInv (applyPWMOp s op) := by
  obtain ⟨h1, h2, h3⟩ := h
  cases op with
  | setDuty r =>
    simp only [applyPWMOp, PWMChannelModel.setDutyCycle]
    by_cases hc : s.closed = true
    · simp [hc, Except.toOption, Option.getD]; exact ⟨h1, h2, h3⟩
    · simp only [Bool.not_eq_true] at hc
      by_cases hr : r < 0 ∨ 1 < r
      · simp [hc, hr, Except.toOption, Option.getD]; exact ⟨h1, h2, h3⟩
      · simp [hc, hr, Except.toOption, Option.getD]; exact ⟨rfl, h2, h3⟩
  | setFreq f =>
    simp only [applyPWMOp, PWMChannelModel.setFrequency]
    by_cases hc : s.closed = true
    · simp [hc, Except.toOption, Option.getD]; exact ⟨h1, h2, h3⟩
    · simp only [Bool.not_eq_true] at hc
      by_cases hf : f ≤ 0
      · simp [hc, hf, Except.toOption, Option.getD]; exact ⟨h1, h2, h3⟩
      · simp [hc, hf, Except.toOption, Option.getD]; exact ⟨rfl, rfl, rfl⟩

theorem pwmInv_applyPWMOps (ops : List PWMOp) (s : PWMChannelModel) (h : PWMInv s) :
    PWMInv (applyPWMOps ops s) := by
  induction ops generalizing s with
  | nil => exact h
  | cons op ops ih => exact ih _ (pwmInv_applyPWMOp s op h)

theorem pwmInv_channelInitState (ch : ℕ) (f r : ℚ) : PWMInv (channelInitState ch f r) :=
  ⟨rfl, rfl, rfl⟩

/-- C1: for every hardware PWM channel, every duty ratio `r ∈ [0,1]` and every
frequency `f > 0`, after any sequence of `setDutyCycle` / `setFrequency` calls
starting from the channel created by `PWM.channel`, the invariant
`duty_ns = round(period_ns * ratio)` and `period_ns = round(1e9 / f)` holds
(for the most recently requested frequency `f`): the duty-in-nanoseconds file
is re-derived from the current period and ratio on every change, and
`setFrequency` preserves the duty ratio. -/
theorem pwm_channel_invariant (ch : ℕ) (f r : ℚ) (hf : 0 < f) (hr0 : 0 ≤ r)
    (hr1 : r ≤ 1) (ops : List PWMOp) :
    PWMInv (applyPWMOps ops (channelInitState ch f r)) :=
  pwmInv_applyPWMOps ops _ (pwmInv_channelInitState ch f r)

/-- Witness for C1 at the specification's own scenario: channel 0 at 1000 Hz
and ratio 1/2, then `setFrequency 2000` then `setDutyCycle 3/4`, ends with
`period_ns = 500000`, `duty_ns = 375000`, and the invariant holds. -/
theorem pwm_channel_invariant_witness :
    applyPWMOps [.setFreq 2000, .setDuty (3/4)] (channelInitState 0 1000 (1/2)) =
      { channel := 0, periodNs := 500000, dutyCycle := 3/4, closed := false,
        filePeriod := 500000, fileDuty := 375000, fileEnable := 1, lastFreq := 2000 } ∧
    PWMInv (applyPWMOps [.setFreq 2000, .setDuty (3/4)] (channelInitState 0 1000 (1/2))) :=
  ⟨by norm_num [applyPWMOps, applyPWMOp, PWMChannelModel.setFrequency,
      PWMChannelModel.setDutyCycle, channelInitState, jsRound, Except.toOption, Option.getD],
   pwm_channel_invariant 0 1000 (1/2) (by norm_num) (by norm_num) (by norm_num) _⟩

/-! ## Software PWM engine (`software-pwm.ts`, class `SoftwarePWM`) -/

/-- Actions performed by a close operation, in execution order.  `markClosed`
is the assignment `_closed = true`; `stopTimer` is `clearInterval`;
`writeOut b` is a write of level `b` to the underlying GPIO output;
`writeEnable v` is a write of `v` to the hardware channel's `enable` file. -/
inductive CloseAct
  | markClosed
  | stopTimer
  | writeOut (b : Bool)
  | writeEnable (v : ℤ)
  deriving DecidableEq, Repr

/-- `PWMChannel.close()`: if not yet closed, write `enable := 0` (best-effort,
errors swallowed), then mark the handle closed; a second call does nothing. -/
def PWMChannelModel.close (s : PWMChannelModel) : PWMChannelModel × List CloseAct :=
  if s.closed then (s, [])
  else ({ s with fileEnable := 0, closed := true }, [.writeEnable 0, .markClosed])

/-- State of a `SoftwarePWM` engine: the private fields `_dutyCycle`,
`_frequencyHz`, `_closed`, the interval handle (`timer !== null`), the cycle
anchor `cycleStartNs` and the last emitted level `lastState`. -/
structure SoftPWMState where
  dutyCycle : ℚ
  frequencyHz : ℚ
  closed : Bool
  timerOn : Bool
  cycleStartNs : ℚ
  lastState : Bool
  deriving DecidableEq, Repr

namespace SoftPWMState

/-- The `SoftwarePWM` constructor: read options (defaults 0.5 and 100 Hz),
validate duty ∈ [0,1] and frequency > 0, anchor the cycle at the current
monotonic time and start the tick timer. -/
def mkNew (now dutyCycle frequencyHz : ℚ) : Except Err SoftPWMState :=
  if dutyCycle < 0 ∨ 1 < dutyCycle then .error .invalidParameter
  else if frequencyHz ≤ 0 then .error .invalidParameter
  else .ok { dutyCycle := dutyCycle, frequencyHz := frequencyHz, closed := false,
             timerOn := true, cycleStartNs := now, lastState := false }

/-- `SoftwarePWM.setDutyCycle(ratio)`: check closed, validate, store the ratio.
No other field is touched. -/
def setDutyCycle (r : ℚ) (s : SoftPWMState) : Except Err SoftPWMState :=
  if s.closed then .error .closedHandle
  else if r < 0 ∨ 1 < r then .error .invalidParameter
  else .ok { s with dutyCycle := r }

/-- `SoftwarePWM.setFrequency(frequencyHz)`: check closed, validate, store the
frequency.  No other field is touched. -/
def setFrequency (f : ℚ) (s : SoftPWMState) : Except Err SoftPWMState :=
  if s.closed then .error .closedHandle
  else if f ≤ 0 then .error .invalidParameter
  else .ok { s with frequencyHz := f }

/-- `SoftwarePWM.tick()` at monotonic time `now`: no-op when closed; at duty
ratio ≤ 0 force the level low once; at duty ratio ≥ 1 force it high once;
otherwise advance the cycle anchor by the whole number of elapsed periods if
at least one period has passed, compute the position in cycle, and write the
target level only when it differs from the last emitted level.  Returns the
new state together with the level written, if any. -/
def tick (now : ℚ) (s : SoftPWMState) : SoftPWMState × Option Bool :=
  if s.closed then (s, none)
  else if s.dutyCycle ≤ 0 then
    if s.lastState ≠ false then ({ s with lastState := false }, some false)
    else (s, none)
  else if 1 ≤ s.dutyCycle then
    if s.lastState ≠ true then ({ s with lastState := true }, some true)
    else (s, none)
  else
    let periodNs := 1000000000 / s.frequencyHz
    let elapsed0 := now - s.cycleStartNs
    let newStart :=
      if periodNs ≤ elapsed0 then
        s.cycleStartNs + (⌊elapsed0 / periodNs⌋ : ℚ) * periodNs
      else s.cycleStartNs
    let elapsedNs := now - newStart
    let positionInCycle := elapsedNs / periodNs
    let shouldBeHigh := decide (positionInCycle < s.dutyCycle)
    if shouldBeHigh ≠ s.lastState then
      ({ s with cycleStartNs := newStart, lastState := shouldBeHigh }, some shouldBeHigh)
    else
      ({ s with cycleStartNs := newStart }, none)

/-- Run `tick` at each time of `times` in order, collecting the levels
actually written to the GPIO output. -/
def tickRun (times : List ℚ) (s : SoftPWMState) : SoftPWMState × List Bool :=
  match times with
  | [] => (s, [])
  | t :: ts =>
    let r1 := tick t s
    let r2 := tickRun ts r1.1
    (r2.1, r1.2.toList ++ r2.2)

/-- `SoftwarePWM.close()`: if not yet closed, mark closed, stop the tick
timer, then force the underlying output low and record `lastState = false`;
a second call does nothing. -/
def close (s : SoftPWMState) : SoftPWMState × List CloseAct :=
  if s.closed then (s, [])
  else ({ s with closed := true, timerOn := false, lastState := false },
        [CloseAct.markClosed] ++ (if s.timerOn then [CloseAct.stopTimer] else [])
          ++ [CloseAct.writeOut false])

end SoftPWMState

/-- At duty ratio ≤ 0 with the level already low, a tick writes nothing and
leaves the state unchanged. -/
theorem tick_idle_low (now : ℚ) (s : SoftPWMState) (hopen : s.closed = false)
    (hd : s.dutyCycle ≤ 0) (hl : s.lastState = false) :
    SoftPWMState.tick now s = (s, none) := by
  simp [SoftPWMState.tick, hopen, hd, hl]

/-- At duty ratio ≤ 0 with the level currently high, a tick writes exactly one
low level. -/
theorem tick_force_low (now : ℚ) (s : SoftPWMState) (hopen : s.closed = false)
    (hd : s.dutyCycle ≤ 0) (hl : s.lastState = true) :
    SoftPWMState.tick now s = ({ s with lastState := false }, some false) := by
  simp [SoftPWMState.tick, hopen, hd, hl]

/-- At duty ratio ≥ 1 with the level already high, a tick writes nothing. -/
theorem tick_idle_high (now : ℚ) (s : SoftPWMState) (hopen : s.closed = false)
    (hd : 1 ≤ s.dutyCycle) (hl : s.lastState = true) :
    SoftPWMState.tick now s = (s, none) := by
  have hd0 : ¬s.dutyCycle ≤ 0 := not_le.mpr (lt_of_lt_of_le one_pos hd)
  simp [SoftPWMState.tick, hopen, hd0, hd, hl]

/-- At duty ratio ≥ 1 with the level currently low, a tick writes exactly one
high level. -/
theorem tick_force_high (now : ℚ) (s : SoftPWMState) (hopen : s.closed = false)
    (hd : 1 ≤ s.dutyCycle) (hl : s.lastState = false) :
    SoftPWMState.tick now s = ({ s with lastState := true }, some true) := by
  have hd0 : ¬s.dutyCycle ≤ 0 := not_le.mpr (lt_of_lt_of_le one_pos hd)
  simp [SoftPWMState.tick, hopen, hd0, hd, hl]

theorem tickRun_idle_low (times : List ℚ) (s : SoftPWMState) (hopen : s.closed = false)
    (hd : s.dutyCycle ≤ 0) (hl : s.lastState = false) :
    SoftPWMState.tickRun times s = (s, []) := by
  induction times with
  | nil => rfl
  | cons t ts ih => simp [SoftPWMState.tickRun, tick_idle_low t s hopen hd hl, ih]

theorem tickRun_idle_high (times : List ℚ) (s : SoftPWMState) (hopen : s.closed = false)
    (hd : 1 ≤ s.dutyCycle) (hl : s.lastState = true) :
    SoftPWMState.tickRun times s = (s, []) := by
  induction times with
  | nil => rfl
  | cons t ts ih => simp [SoftPWMState.tickRun, tick_idle_high t s hopen hd hl, ih]

/-- C5: for every open software PWM, at duty ratio ≤ 0 no sequence of ticks
ever writes a high level and at most one low write is issued (it occurs only
if the level was high); symmetrically at duty ratio ≥ 1 no tick ever writes a
low level and at most one high write is issued — the boundary ratios bypass
the phase computation entirely. -/
theorem softpwm_boundary_no_glitch (s : SoftPWMState) (times : List ℚ)
    (hopen : s.closed = false) :
    (s.dutyCycle ≤ 0 →
      (SoftPWMState.tickRun times s).2 = [] ∨ (SoftPWMState.tickRun times s).2 = [false]) ∧
    (1 ≤ s.dutyCycle →
      (SoftPWMState.tickRun times s).2 = [] ∨ (SoftPWMState.tickRun times s).2 = [true]) := by
  constructor
  · intro hd
    cases times with
    | nil => left; rfl
    | cons t ts =>
      cases hl : s.lastState with
      | false =>
        left
        rw [tickRun_idle_low (t :: ts) s hopen hd hl]
      | true =>
        right
        have h1 := tick_force_low t s hopen hd hl
        have h2 : SoftPWMState.tickRun ts { s with lastState := false } =
            ({ s with lastState := false }, []) :=
          tickRun_idle_low ts _ hopen hd rfl
        simp [SoftPWMState.tickRun, h1, h2]
  · intro hd
    cases times with
    | nil => left; rfl
    | cons t ts =>
      cases hl : s.lastState with
      | true =>
        left
        rw [tickRun_idle_high (t :: ts) s hopen hd hl]
      | false =>
        right
        have h1 := tick_force_high t s hopen hd hl
        have h2 : SoftPWMState.tickRun ts { s with lastState := true } =
            ({ s with lastState := true }, []) :=
          tickRun_idle_high ts _ hopen hd rfl
        simp [SoftPWMState.tickRun, h1, h2]

/-- A concrete open software PWM at duty 0 whose level is currently high. -/
def softLowBoundary : SoftPWMState :=
  { dutyCycle := 0, frequencyHz := 100, closed := false, timerOn := true,
    cycleStartNs := 0, lastState := true }

/-- Witness for C5: three ticks at duty 0 from a high level write at most one
low level and never a high one. -/
theorem softpwm_boundary_no_glitch_witness :
    (SoftPWMState.tickRun [1, 2, 3] softLowBoundary).2 = [] ∨
      (SoftPWMState.tickRun [1, 2, 3] softLowBoundary).2 = [false] :=
  (softpwm_boundary_no_glitch softLowBoundary [1, 2, 3] rfl).1 le_rfl

/-- C6: `SoftwarePWM.setDutyCycle` and `SoftwarePWM.setFrequency` modify only
the duty-ratio (respectively frequency) field: in particular they leave the
cycle anchor `cycleStartNs` and the last emitted level unchanged, so the
position-in-cycle on the next tick is computed from the unchanged anchor. -/
theorem softpwm_setters_frame (s : SoftPWMState) (r f : ℚ) :
    (∀ t, SoftPWMState.setDutyCycle r s = .ok t →
        t.cycleStartNs = s.cycleStartNs ∧ t.lastState = s.lastState ∧
        t.frequencyHz = s.frequencyHz ∧ t.closed = s.closed ∧
        t.timerOn = s.timerOn ∧ t.dutyCycle = r) ∧
    (∀ t, SoftPWMState.setFrequency f s = .ok t →
        t.cycleStartNs = s.cycleStartNs ∧ t.lastState = s.lastState ∧
        t.dutyCycle = s.dutyCycle ∧ t.closed = s.closed ∧
        t.timerOn = s.timerOn ∧ t.frequencyHz = f) := by
  constructor
  · intro t ht
    unfold SoftPWMState.setDutyCycle at ht
    split at ht
    · cases ht
    · split at ht
      · cases ht
      · cases ht
        exact ⟨rfl, rfl, rfl, rfl, rfl, rfl⟩
  · intro t ht
    unfold SoftPWMState.setFrequency at ht
    split at ht
    · cases ht
    · split at ht
      · cases ht
      · cases ht
        exact ⟨rfl, rfl, rfl, rfl, rfl, rfl⟩

/-- A concrete open software PWM mid-cycle (anchor at 42 ns, level high). -/
def softMidCycle : SoftPWMState :=
  { dutyCycle := 1/2, frequencyHz := 100, closed := false, timerOn := true,
    cycleStartNs := 42, lastState := true }

/-- Witness for C6: a live duty change to 1/4 on `softMidCycle` keeps the
anchor at 42 and the level high. -/
theorem softpwm_setters_frame_witness :
    ({ softMidCycle with dutyCycle := 1/4 } : SoftPWMState).cycleStartNs =
        softMidCycle.cycleStartNs ∧
    ({ softMidCycle with dutyCycle := 1/4 } : SoftPWMState).lastState =
        softMidCycle.lastState ∧
    ({ softMidCycle with dutyCycle := 1/4 } : SoftPWMState).frequencyHz =
        softMidCycle.frequencyHz ∧
    ({ softMidCycle with dutyCycle := 1/4 } : SoftPWMState).closed = softMidCycle.closed ∧
    ({ softMidCycle with dutyCycle := 1/4 } : SoftPWMState).timerOn = softMidCycle.timerOn ∧
    ({ softMidCycle with dutyCycle := 1/4 } : SoftPWMState).dutyCycle = 1/4 :=
  (softpwm_setters_frame softMidCycle (1/4) 200).1 _
    (by norm_num [SoftPWMState.setDutyCycle, softMidCycle])

/-- C7: in a software PWM tick with `0 < duty < 1`, if the elapsed time since
the cycle anchor is at least one period, the anchor is advanced by exactly
`floor(elapsed/period)` whole periods (not one period at a time); the
recomputed elapsed time then lies in `[0, period)`, and the level after the
tick is high iff the recomputed `elapsed/period` is below the duty ratio. -/
theorem softpwm_tick_drift (s : SoftPWMState) (now : ℚ)
    (hopen : s.closed = false) (hd0 : 0 < s.dutyCycle) (hd1 : s.dutyCycle < 1)
    (hf : 0 < s.frequencyHz)
    (hlag : 1000000000 / s.frequencyHz ≤ now - s.cycleStartNs) :
    (SoftPWMState.tick now s).1.cycleStartNs =
      s.cycleStartNs +
        (⌊(now - s.cycleStartNs) / (1000000000 / s.frequencyHz)⌋ : ℚ) *
          (1000000000 / s.frequencyHz) ∧
    0 ≤ now - (SoftPWMState.tick now s).1.cycleStartNs ∧
    now - (SoftPWMState.tick now s).1.cycleStartNs < 1000000000 / s.frequencyHz ∧
    ((SoftPWMState.tick now s).1.lastState = true ↔
      (now - (SoftPWMState.tick now s).1.cycleStartNs) / (1000000000 / s.frequencyHz) <
        s.dutyCycle) := by
  have hp : (0 : ℚ) < 1000000000 / s.frequencyHz := by positivity
  set p : ℚ := 1000000000 / s.frequencyHz with hpdef
  set e : ℚ := now - s.cycleStartNs with hedef
  set a : ℚ := s.cycleStartNs + (⌊e / p⌋ : ℚ) * p with hadef
  have key : (SoftPWMState.tick now s).1.cycleStartNs = a ∧
      (SoftPWMState.tick now s).1.lastState = decide ((now - a) / p < s.dutyCycle) := by
    have hnd0 : ¬s.dutyCycle ≤ 0 := not_le.mpr hd0
    have hnd1 : ¬(1 : ℚ) ≤ s.dutyCycle := not_le.mpr hd1
    simp only [SoftPWMState.tick, hopen, Bool.false_eq_true, if_false, hnd0, hnd1,
      ← hpdef, ← hedef, if_pos hlag, ← hadef]
    split
    · exact ⟨rfl, rfl⟩
    · next h =>
      refine ⟨rfl, ?_⟩
      simpa using (not_not.mp h).symm
  have hfl : (⌊e / p⌋ : ℚ) * p ≤ e := by
    have h1 : (⌊e / p⌋ : ℚ) ≤ e / p := Int.floor_le (e / p)
    calc (⌊e / p⌋ : ℚ) * p ≤ (e / p) * p := by
          exact mul_le_mul_of_nonneg_right h1 (le_of_lt hp)
      _ = e := div_mul_cancel₀ e (ne_of_gt hp)
  have hfu : e < ((⌊e / p⌋ : ℚ) + 1) * p := by
    have h1 : e / p < (⌊e / p⌋ : ℚ) + 1 := Int.lt_floor_add_one (e / p)
    calc e = (e / p) * p := (div_mul_cancel₀ e (ne_of_gt hp)).symm
      _ < ((⌊e / p⌋ : ℚ) + 1) * p := by
          exact mul_lt_mul_of_pos_right h1 hp
  have hna : now - a = e - (⌊e / p⌋ : ℚ) * p := by
    rw [hadef, hedef]; ring
  refine ⟨key.1, ?_, ?_, ?_⟩
  · rw [key.1, hna]; linarith
  · rw [key.1, hna]; nlinarith
  · rw [key.1, key.2]
    simp

/-- A concrete open software PWM at 1000 Hz (period 1e6 ns), duty 1/2,
anchored at 0 and 2.5 periods behind at the witness tick. -/
def softDrift : SoftPWMState :=
  { dutyCycle := 1/2, frequencyHz := 1000, closed := false, timerOn := true,
    cycleStartNs := 0, lastState := true }

/-- Witness for C7 at `now = 2500000` ns on `softDrift`: the anchor advances
by two whole periods, the recomputed elapsed time lies in `[0, 1e6)` and the
level after the tick matches the position test. -/
theorem softpwm_tick_drift_witness :
    (SoftPWMState.tick 2500000 softDrift).1.cycleStartNs =
      softDrift.cycleStartNs +
        (⌊(2500000 - softDrift.cycleStartNs) / (1000000000 / softDrift.frequencyHz)⌋ : ℚ) *
          (1000000000 / softDrift.frequencyHz) ∧
    0 ≤ 2500000 - (SoftPWMState.tick 2500000 softDrift).1.cycleStartNs ∧
    2500000 - (SoftPWMState.tick 2500000 softDrift).1.cycleStartNs <
      1000000000 / softDrift.frequencyHz ∧
    ((SoftPWMState.tick 2500000 softDrift).1.lastState = true ↔
      (2500000 - (SoftPWMState.tick 2500000 softDrift).1.cycleStartNs) /
          (1000000000 / softDrift.frequencyHz) < softDrift.dutyCycle) :=
  softpwm_tick_drift softDrift 2500000 rfl (by norm_num [softDrift])
    (by norm_num [softDrift]) (by norm_num [softDrift]) (by norm_num [softDrift])

/-- A concrete open software PWM (duty 1/2, timer running, level high). -/
def softOpenRunning : SoftPWMState :=
  { dutyCycle := 1/2, frequencyHz := 100, closed := false, timerOn := true,
    cycleStartNs := 7, lastState := true }

/-- C3 counterexample: on a concrete open `SoftwarePWM`, `close()` marks the
handle closed first — the force-output-low write is the last action of the
trace and comes after `markClosed`, so the claim that the safe action always
precedes marking closed fails for `SoftwarePWM.close`. -/
theorem close_order_counterexample :
    (SoftPWMState.close softOpenRunning).2 =
      [CloseAct.markClosed, CloseAct.stopTimer, CloseAct.writeOut false] ∧
    (SoftPWMState.close softOpenRunning).2.head? = some CloseAct.markClosed :=
  ⟨rfl, rfl⟩

/-- C3 amended: `PWMChannel.close` writes `enable := 0` before marking the
handle closed; `SoftwarePWM.close` marks the handle closed (and stops the
tick timer) first and forces the output low as the final action of the same
call; both closes are idempotent — a second close performs no actions and
raises no error. -/
theorem close_order_amended :
    (∀ s : PWMChannelModel, s.closed = false →
        PWMChannelModel.close s =
          ({ s with fileEnable := 0, closed := true },
           [CloseAct.writeEnable 0, CloseAct.markClosed])) ∧
    (∀ s : SoftPWMState, s.closed = false → s.timerOn = true →
        SoftPWMState.close s =
          ({ s with closed := true, timerOn := false, lastState := false },
           [CloseAct.markClosed, CloseAct.stopTimer, CloseAct.writeOut false])) ∧
    (∀ s : PWMChannelModel, s.closed = true → PWMChannelModel.close s = (s, [])) ∧
    (∀ s : SoftPWMState, s.closed = true → SoftPWMState.close s = (s, [])) ∧
    (∀ s : PWMChannelModel, (PWMChannelModel.close (PWMChannelModel.close s).1).2 = []) ∧
    (∀ s : SoftPWMState, (SoftPWMState.close (SoftPWMState.close s).1).2 = []) := by
  refine ⟨?_, ?_, ?_, ?_, ?_, ?_⟩
  · intro s hs; simp [PWMChannelModel.close, hs]
  · intro s hs ht; simp [SoftPWMState.close, hs, ht]
  · intro s hs; simp [PWMChannelModel.close, hs]
  · intro s hs; simp [SoftPWMState.close, hs]
  · intro s
    by_cases hs : s.closed
    · simp [PWMChannelModel.close, hs]
    · simp [PWMChannelModel.close, hs]
  · intro s
    by_cases hs : s.closed
    · simp [SoftPWMState.close, hs]
    · simp [SoftPWMState.close, hs]

/-- Witness for the amended C3 at concrete states: the two close traces and
the idempotence of a second close. -/
theorem close_order_amended_witness :
    SoftPWMState.close softOpenRunning =
      ({ softOpenRunning with closed := true, timerOn := false, lastState := false },
       [CloseAct.markClosed, CloseAct.stopTimer, CloseAct.writeOut false]) ∧
    (SoftPWMState.close (SoftPWMState.close softOpenRunning).1).2 = [] :=
  ⟨(close_order_amended.2.1 softOpenRunning rfl rfl),
   (close_order_amended.2.2.2.2.2 softOpenRunning)⟩

/-! ## GPIO lines (`gpio.ts`) -/

/-- Edge-detection setting of an input (`EdgeSetting` in the source). -/
inductive EdgeSetting
  | noneEdge
  | rising
  | falling
  | both
  deriving DecidableEq, Repr

/-- An edge event as surfaced to consumers (`EdgeEvent` in the source). -/
structure EdgeEvent where
  rising : Bool
  timestampNs : ℤ
  pin : ℕ
  sequence : ℤ
  deriving DecidableEq, Repr

/-- Calls made to the libgpiod kernel interface, recorded in order. -/
inductive KernelCall
  | requestLines (pin : ℕ)
  | releaseRequest (pin : ℕ)
  | setValue (pin : ℕ) (v : Bool)
  | getValue (pin : ℕ)
  | waitEdgeEvents (timeoutNs : ℤ)
  | readEdgeEvents (maxEvents : ℕ)
  | freeBuffer
  deriving DecidableEq, Repr

/-- A registered edge callback, identified for the model by `id`; `throwsOn`
lists the events on which the callback body raises an error. -/
structure CallbackSpec where
  id : ℕ
  throwsOn : List EdgeEvent
  deriving DecidableEq, Repr

/-- State of a `GPIOOutput` handle: pin, last driven state, closed flag. -/
structure GPIOOutputState where
  pin : ℕ
  state : Bool
  closed : Bool
  deriving DecidableEq, Repr

/-- State of a `GPIOInput` handle: pin, fixed edge setting, closed flag,
whether the 16-slot event buffer exists, the registered callbacks in
registration order, and whether the 1 ms poll interval is running. -/
structure GPIOInputState where
  pin : ℕ
  edge : EdgeSetting
  closed : Bool
  hasBuffer : Bool
  callbacks : List CallbackSpec
  polling : Bool
  deriving DecidableEq, Repr

/-- State of a `GPIO` controller: closed flag, the set of line offsets
currently requested at the kernel (in request order), and the pins of the
output/input handles it has created and tracks. -/
structure GPIOChip where
  closed : Bool
  kernel : List ℕ
  outputs : List ℕ
  inputs : List ℕ
  deriving DecidableEq, Repr

/-- The kernel line-request primitive (`gpiod_chip_request_lines`), the
external collaborator of spec §6: it grants an exclusive lease on a free line
and returns null for a line that is already requested — per spec §5,
line-lease exclusivity is delegated to the kernel and conflicts surface as
acquisition failures. -/
def requestLines (kernel : List ℕ) (pin : ℕ) : Option (List ℕ) :=
  if pin ∈ kernel then none else some (pin :: kernel)

/-- `GPIO.output(pin, options)`: check the controller is open, build the line
configuration and request the line from the kernel.  The source performs no
in-process check against already-leased offsets — the request is always
issued, and a kernel refusal surfaces as a request-failure error.  On success
the handle starts at the requested initial value and is tracked by the chip. -/
def gpioOutput (pin : ℕ) (initialValue : Bool) (c : GPIOChip) :
    Except Err (GPIOChip × GPIOOutputState) × List KernelCall :=
  if c.closed then (.error .controllerClosed, [])
  else
    match requestLines c.kernel pin with
    | none => (.error (.requestFailed pin), [.requestLines pin])
    | some k =>
      (.ok ({ c with kernel := k, outputs := c.outputs ++ [pin] },
            { pin := pin, state := initialValue, closed := false }),
       [.requestLines pin])

/-- `GPIO.input(pin, options)`: like `gpioOutput`, with no in-process
duplicate check; on success the handle owns an event buffer iff its edge
setting is not `"none"`, with no callbacks and no poll running. -/
def gpioInput (pin : ℕ) (edge : EdgeSetting) (c : GPIOChip) :
    Except Err (GPIOChip × GPIOInputState) × List KernelCall :=
  if c.closed then (.error .controllerClosed, [])
  else
    match requestLines c.kernel pin with
    | none => (.error (.requestFailed pin), [.requestLines pin])
    | some k =>
      (.ok ({ c with kernel := k, inputs := c.inputs ++ [pin] },
            { pin := pin, edge := edge, closed := false,
              hasBuffer := decide (edge ≠ .noneEdge), callbacks := [], polling := false }),
       [.requestLines pin])

/-- `GPIOOutput.close()`: if not yet closed, release the kernel line request
and mark the handle closed; double close is a no-op. -/
def outputClose (h : GPIOOutputState) (c : GPIOChip) :
    (GPIOOutputState × GPIOChip) × List KernelCall :=
  if h.closed then ((h, c), [])
  else (({ h with closed := true }, { c with kernel := c.kernel.erase h.pin }),
        [.releaseRequest h.pin])

/-- `GPIOInput.close()`: stop any poll, free the event buffer if present,
release the kernel line request, mark closed and clear the callbacks. -/
def inputClose (h : GPIOInputState) (c : GPIOChip) :
    (GPIOInputState × GPIOChip) × List KernelCall :=
  if h.closed then ((h, c), [])
  else
    (({ h with closed := true, hasBuffer := false, callbacks := [], polling := false },
      { c with kernel := c.kernel.erase h.pin }),
     (if h.hasBuffer then [KernelCall.freeBuffer] else []) ++ [.releaseRequest h.pin])

/-- A public mutator of a `GPIOOutput` handle. -/
inductive OutOp
  | turnOn
  | turnOff
  | toggle
  | write (b : Bool)
  deriving DecidableEq, Repr

/-- `GPIOOutput.on/off/toggle/write`: each checks the closed flag first and
then drives the line through the kernel `setValue` call. -/
def applyOutOp (op : OutOp) (s : GPIOOutputState) :
    Except Err GPIOOutputState × List KernelCall :=
  if s.closed then (.error .closedHandle, [])
  else
    match op with
    | .turnOn => (.ok { s with state := true }, [.setValue s.pin true])
    | .turnOff => (.ok { s with state := false }, [.setValue s.pin false])
    | .toggle =>
      if s.state then (.ok { s with state := false }, [.setValue s.pin false])
      else (.ok { s with state := true }, [.setValue s.pin true])
    | .write b =>
      if b then (.ok { s with state := true }, [.setValue s.pin true])
      else (.ok { s with state := false }, [.setValue s.pin false])

/-- `GPIOInput.read()`: check closed, then read the line value from the
kernel (`kv` is the value the kernel returns; negative means failure). -/
def inputRead (kv : ℤ) (s : GPIOInputState) : Except Err Bool × List KernelCall :=
  if s.closed then (.error .closedHandle, [])
  else if kv < 0 then (.error (.readFailed s.pin), [.getValue s.pin])
  else (.ok (decide (kv = 1)), [.getValue s.pin])

/-- `GPIOInput.onEdge(cb)`: check closed, require an edge mode, append the
callback and ensure the 1 ms poll is running (no immediate kernel call). -/
def inputOnEdge (cb : CallbackSpec) (s : GPIOInputState) :
    Except Err GPIOInputState × List KernelCall :=
  if s.closed then (.error .closedHandle, [])
  else if s.edge = .noneEdge then (.error .edgeDisabled, [])
  else (.ok { s with callbacks := s.callbacks ++ [cb], polling := true }, [])

/-- `GPIOInput.offEdge(cb)`: remove the first matching callback if present
and stop the poll when none remain.  The source performs no closed check and
can never throw. -/
def inputOffEdge (cb : CallbackSpec) (s : GPIOInputState) :
    Except Err GPIOInputState × List KernelCall :=
  let cbs := s.callbacks.erase cb
  (.ok { s with callbacks := cbs, polling := if cbs = [] then false else s.polling }, [])

/-- The nanosecond timeout handed to the kernel wait by `waitForEdge`:
`timeoutMs * 1e6` when a millisecond timeout was given, `-1` (wait forever)
when absent. -/
def timeoutNsOf : Option ℤ → ℤ
  | some t => t * 1000000
  | none => -1

/-- `GPIOInput.waitForEdge(timeoutMs?)`: check closed and edge mode, wait on
the kernel with `timeoutNsOf timeoutMs` (`kwait` gives the kernel's result
for a timeout: negative = error, 0 = timed out, positive = event pending),
and on a pending event read one event from the buffer (`kread` is the buffer
content the kernel delivers) and return it; an empty read returns nothing. -/
def waitForEdge (timeoutMs : Option ℤ) (kwait : ℤ → ℤ) (kread : List EdgeEvent)
    (s : GPIOInputState) : Except Err (Option EdgeEvent) × List KernelCall :=
  if s.closed then (.error .closedHandle, [])
  else if s.edge = .noneEdge then (.error .edgeDisabled, [])
  else
    let timeoutNs := timeoutNsOf timeoutMs
    let r := kwait timeoutNs
    if r < 0 then (.error .waitFailed, [.waitEdgeEvents timeoutNs])
    else if r = 0 then (.ok none, [.waitEdgeEvents timeoutNs])
    else
      match kread with
      | [] => (.ok none, [.waitEdgeEvents timeoutNs, .readEdgeEvents 1])
      | e :: _ => (.ok (some e), [.waitEdgeEvents timeoutNs, .readEdgeEvents 1])

/-- A concrete open chip on which offset 5 is already leased. -/
def chipBusy : GPIOChip :=
  { closed := false, kernel := [5], outputs := [5], inputs := [] }

/-- C2 counterexample: acquiring offset 5 a second time on `chipBusy` issues
the kernel line request (the kernel interface is touched) and fails with the
request-failure error thrown when `gpiod_chip_request_lines` returns null —
not with an in-process `ResourceInUse` error raised before the kernel call. -/
theorem gpio_double_acquire_counterexample :
    (gpioOutput 5 false chipBusy).1 = .error (.requestFailed 5) ∧
    (gpioOutput 5 false chipBusy).2 = [.requestLines 5] ∧
    (gpioInput 5 .rising chipBusy).1 = .error (.requestFailed 5) ∧
    (gpioInput 5 .rising chipBusy).2 = [.requestLines 5] := by
  refine ⟨?_, ?_, ?_, ?_⟩ <;> rfl

/-- C2 amended: acquiring the same GPIO offset twice on one chip (via output
or input) without releasing the first lease fails — but by the kernel
refusing the always-issued line request (a request-failure acquisition
error), not by an in-process `ResourceInUse` check before touching the kernel
interface; after the first handle is closed (releasing the kernel lease),
re-acquisition succeeds. -/
theorem gpio_exclusive_lease (c : GPIOChip) (pin : ℕ) (v w : Bool) (e : EdgeSetting)
    (hopen : c.closed = false) (hfree : pin ∉ c.kernel) :
    ∃ c1 h1, gpioOutput pin v c = (.ok (c1, h1), [.requestLines pin]) ∧
      gpioOutput pin w c1 = (.error (.requestFailed pin), [.requestLines pin]) ∧
      gpioInput pin e c1 = (.error (.requestFailed pin), [.requestLines pin]) ∧
      ∃ h1c c2, outputClose h1 c1 = ((h1c, c2), [.releaseRequest pin]) ∧
        ∃ c3 h2, (gpioOutput pin w c2).1 = .ok (c3, h2) := by
  have hreq : requestLines c.kernel pin = some (pin :: c.kernel) := by
    simp [requestLines, hfree]
  refine ⟨{ c with kernel := pin :: c.kernel, outputs := c.outputs ++ [pin] },
          { pin := pin, state := v, closed := false }, ?_, ?_, ?_, ?_⟩
  · simp [gpioOutput, hopen, hreq]
  · simp [gpioOutput, hopen, requestLines]
  · simp [gpioInput, hopen, requestLines]
  · refine ⟨{ pin := pin, state := v, closed := true },
            { c with kernel := (pin :: c.kernel).erase pin, outputs := c.outputs ++ [pin] },
            ?_, ?_⟩
    · simp [outputClose]
    · have herase : (pin :: c.kernel).erase pin = c.kernel := List.erase_cons_head pin c.kernel
      simp only [gpioOutput, hopen, herase, requestLines, hfree, if_false,
        Bool.false_eq_true, ite_false]
      exact ⟨_, _, rfl⟩

/-- Witness for the amended C2: a fresh chip, acquire pin 17, fail to acquire
it again, close, and re-acquire. -/
theorem gpio_exclusive_lease_witness :
    ∃ c1 h1,
      gpioOutput 17 false { closed := false, kernel := [], outputs := [], inputs := [] } =
        (.ok (c1, h1), [.requestLines 17]) ∧
      gpioOutput 17 true c1 = (.error (.requestFailed 17), [.requestLines 17]) ∧
      gpioInput 17 .both c1 = (.error (.requestFailed 17), [.requestLines 17]) ∧
      ∃ h1c c2, outputClose h1 c1 = ((h1c, c2), [.releaseRequest 17]) ∧
        ∃ c3 h2, (gpioOutput 17 true c2).1 = .ok (c3, h2) :=
  gpio_exclusive_lease _ 17 false true .both rfl (by decide)

/-- A concrete closed input handle (as produced by `GPIOInput.close`, which
clears the callback list and stops the poll). -/
def inputClosed : GPIOInputState :=
  { pin := 27, edge := .rising, closed := true, hasBuffer := false,
    callbacks := [], polling := false }

/-- C4 counterexample: `GPIOInput.offEdge` performs no closed check — on a
closed input it returns normally (a silent no-op) instead of failing fast
with a closed-handle error, so the claim does not hold for every public
operation other than `close`. -/
theorem closed_handle_counterexample :
    inputOffEdge { id := 1, throwsOn := [] } inputClosed = (.ok inputClosed, []) ∧
    (inputOffEdge { id := 1, throwsOn := [] } inputClosed).1 ≠ .error .closedHandle := by
  refine ⟨rfl, ?_⟩
  intro h
  cases h

/-- C4 amended: every public operation other than `close` and
`GPIOInput.offEdge` — `GPIOOutput.on/off/toggle/write`, `GPIOInput.read`,
`onEdge`, `waitForEdge`, `PWMChannel.setDutyCycle/setFrequency`,
`SoftwarePWM.setDutyCycle/setFrequency` — invoked on a closed handle fails
fast with the closed-handle error, without any kernel call, file write or
state change; `offEdge` on a closed input (whose callbacks were cleared by
`close`) returns normally and changes nothing. -/
theorem closed_handle_fail_fast :
    (∀ (op : OutOp) (s : GPIOOutputState), s.closed = true →
        applyOutOp op s = (.error .closedHandle, [])) ∧
    (∀ (kv : ℤ) (s : GPIOInputState), s.closed = true →
        inputRead kv s = (.error .closedHandle, [])) ∧
    (∀ (cb : CallbackSpec) (s : GPIOInputState), s.closed = true →
        inputOnEdge cb s = (.error .closedHandle, [])) ∧
    (∀ (t : Option ℤ) (kwait : ℤ → ℤ) (kread : List EdgeEvent) (s : GPIOInputState),
        s.closed = true → waitForEdge t kwait kread s = (.error .closedHandle, [])) ∧
    (∀ (r : ℚ) (s : PWMChannelModel), s.closed = true →
        PWMChannelModel.setDutyCycle r s = .error .closedHandle) ∧
    (∀ (f : ℚ) (s : PWMChannelModel), s.closed = true →
        PWMChannelModel.setFrequency f s = .error .closedHandle) ∧
    (∀ (r : ℚ) (s : SoftPWMState), s.closed = true →
        SoftPWMState.setDutyCycle r s = .error .closedHandle) ∧
    (∀ (f : ℚ) (s : SoftPWMState), s.closed = true →
        SoftPWMState.setFrequency f s = .error .closedHandle) ∧
    (∀ (cb : CallbackSpec) (s : GPIOInputState), s.closed = true → s.callbacks = [] →
        s.polling = false → inputOffEdge cb s = (.ok s, [])) := by
  refine ⟨?_, ?_, ?_, ?_, ?_, ?_, ?_, ?_, ?_⟩
  · intro op s hs; simp [applyOutOp, hs]
  · intro kv s hs; simp [inputRead, hs]
  · intro cb s hs; simp [inputOnEdge, hs]
  · intro t kwait kread s hs; simp [waitForEdge, hs]
  · intro r s hs; simp [PWMChannelModel.setDutyCycle, hs]
  · intro f s hs; simp [PWMChannelModel.setFrequency, hs]
  · intro r s hs; simp [SoftPWMState.setDutyCycle, hs]
  · intro f s hs; simp [SoftPWMState.setFrequency, hs]
  · intro cb s hs hcb hp
    cases s
    simp_all [inputOffEdge]

/-- A concrete closed output handle. -/
def outputClosed : GPIOOutputState := { pin := 17, state := false, closed := true }

/-- A concrete closed hardware PWM channel. -/
def pwmChannelClosed : PWMChannelModel :=
  { channel := 0, periodNs := 1000000, dutyCycle := 1/2, closed := true,
    filePeriod := 1000000, fileDuty := 500000, fileEnable := 0, lastFreq := 1000 }

/-- A concrete closed software PWM engine. -/
def softClosed : SoftPWMState :=
  { dutyCycle := 1/2, frequencyHz := 100, closed := true, timerOn := false,
    cycleStartNs := 0, lastState := false }

/-- Witness for the amended C4 at concrete closed handles. -/
theorem closed_handle_fail_fast_witness :
    applyOutOp .turnOn outputClosed = (.error .closedHandle, []) ∧
    inputRead 1 inputClosed = (.error .closedHandle, []) ∧
    inputOnEdge { id := 1, throwsOn := [] } inputClosed = (.error .closedHandle, []) ∧
    waitForEdge (some 0) (fun _ => 0) [] inputClosed = (.error .closedHandle, []) ∧
    PWMChannelModel.setDutyCycle (3/4) pwmChannelClosed = .error .closedHandle ∧
    PWMChannelModel.setFrequency 2000 pwmChannelClosed = .error .closedHandle ∧
    SoftPWMState.setDutyCycle (3/4) softClosed = .error .closedHandle ∧
    SoftPWMState.setFrequency 200 softClosed = .error .closedHandle ∧
    inputOffEdge { id := 1, throwsOn := [] } inputClosed = (.ok inputClosed, []) :=
  ⟨closed_handle_fail_fast.1 .turnOn outputClosed rfl,
   closed_handle_fail_fast.2.1 1 inputClosed rfl,
   closed_handle_fail_fast.2.2.1 _ inputClosed rfl,
   closed_handle_fail_fast.2.2.2.1 (some 0) (fun _ => 0) [] inputClosed rfl,
   closed_handle_fail_fast.2.2.2.2.1 (3/4) pwmChannelClosed rfl,
   closed_handle_fail_fast.2.2.2.2.2.1 2000 pwmChannelClosed rfl,
   closed_handle_fail_fast.2.2.2.2.2.2.1 (3/4) softClosed rfl,
   closed_handle_fail_fast.2.2.2.2.2.2.2.1 200 softClosed rfl,
   closed_handle_fail_fast.2.2.2.2.2.2.2.2 _ inputClosed rfl rfl rfl⟩

/-- C8: for `GPIOInput.waitForEdge` on an open input with edge detection: an
absent timeout maps to "wait forever" (the kernel wait is invoked with the
negative nanosecond timeout `-1`); a timeout of 0 ms whose kernel wait
reports no pending event polls the kernel exactly once and returns no event
immediately; and whenever the kernel wait reports an event pending, one event
is read from the buffer and returned. -/
theorem wait_for_edge_semantics (s : GPIOInputState) (kwait : ℤ → ℤ)
    (kread : List EdgeEvent) (hopen : s.closed = false)
    (hedge : s.edge ≠ .noneEdge) :
    (∃ rest, (waitForEdge none kwait kread s).2 = .waitEdgeEvents (-1) :: rest) ∧
    (kwait 0 = 0 →
      waitForEdge (some 0) kwait kread s = (.ok none, [.waitEdgeEvents 0])) ∧
    (∀ (t : Option ℤ) (e : EdgeEvent) (rest : List EdgeEvent),
      0 < kwait (timeoutNsOf t) → kread = e :: rest →
      waitForEdge t kwait kread s =
        (.ok (some e), [.waitEdgeEvents (timeoutNsOf t), .readEdgeEvents 1])) := by
  refine ⟨?_, ?_, ?_⟩
  · simp only [waitForEdge, hopen, Bool.false_eq_true, if_false, hedge, timeoutNsOf]
    by_cases h1 : kwait (-1) < 0
    · exact ⟨[], by simp [h1]⟩
    · by_cases h2 : kwait (-1) = 0
      · exact ⟨[], by simp [h1, h2]⟩
      · cases kread with
        | nil => exact ⟨[.readEdgeEvents 1], by simp [h1, h2]⟩
        | cons e rest => exact ⟨[.readEdgeEvents 1], by simp [h1, h2]⟩
  · intro h0
    have hns : timeoutNsOf (some 0) = 0 := by simp [timeoutNsOf]
    simp [waitForEdge, hopen, hedge, hns, h0]
  · intro t e rest hpos hread
    have h1 : ¬kwait (timeoutNsOf t) < 0 := not_lt.mpr (le_of_lt hpos)
    have h2 : kwait (timeoutNsOf t) ≠ 0 := ne_of_gt hpos
    simp [waitForEdge, hopen, hedge, h1, h2, hread]

/-- A concrete open input with rising-edge detection. -/
def inputRising : GPIOInputState :=
  { pin := 27, edge := .rising, closed := false, hasBuffer := true,
    callbacks := [], polling := false }

/-- A concrete edge event. -/
def sampleEvent : EdgeEvent := { rising := true, timestampNs := 1000, pin := 27, sequence := 1 }

/-- Witness for C8: with a kernel that times out at 0 ns timeout but reports
pending on a forever wait, the zero-timeout poll returns no event after one
kernel call, the absent-timeout call passes -1 ns, and a pending wait
returns the buffered event. -/
theorem wait_for_edge_semantics_witness :
    (∃ rest, (waitForEdge none (fun t => if t = 0 then 0 else 1) [sampleEvent]
        inputRising).2 = .waitEdgeEvents (-1) :: rest) ∧
    waitForEdge (some 0) (fun t => if t = 0 then 0 else 1) [sampleEvent] inputRising =
      (.ok none, [.waitEdgeEvents 0]) ∧
    waitForEdge none (fun t => if t = 0 then 0 else 1) [sampleEvent] inputRising =
      (.ok (some sampleEvent), [.waitEdgeEvents (-1), .readEdgeEvents 1]) := by
  have h := wait_for_edge_semantics inputRising (fun t => if t = 0 then 0 else 1)
    [sampleEvent] rfl (by decide)
  exact ⟨h.1, h.2.1 (by decide), h.2.2 none sampleEvent [] (by decide) rfl⟩

/-! ## Edge-callback dispatch loop (`gpio.ts`, `GPIOInput.startPolling`) -/

/-- A record of one callback invocation made by the dispatch loop. -/
structure Invocation where
  cb : ℕ
  event : EdgeEvent
  raised : Bool
  deriving DecidableEq, Repr

/-- One callback invocation inside the dispatch loop: the callback body runs
in a try/catch, so a raised error is caught (and logged) rather than
propagated; `raised` records whether the body threw. -/
def invokeCallback (e : EdgeEvent) (c : CallbackSpec) : Invocation :=
  { cb := c.id, event := e, raised := decide (e ∈ c.throwsOn) }

/-- The dispatch double loop of `startPolling`: for each drained event in
order, invoke every registered callback in registration order. -/
def dispatchEvents (events : List EdgeEvent) (cbs : List CallbackSpec) : List Invocation :=
  events.flatMap fun e => cbs.map (invokeCallback e)

/-- One timer tick of `startPolling`, given the kernel's non-blocking wait
result `r` and the events `pending` in the kernel queue: stop the poll when
the input is closed or no callbacks remain; otherwise wait with timeout 0
and, when events are pending, drain up to the buffer capacity (16) and
dispatch them. -/
def pollTick (r : ℤ) (pending : List EdgeEvent) (s : GPIOInputState) :
    GPIOInputState × List Invocation × List KernelCall :=
  if s.closed ∨ s.callbacks = [] then ({ s with polling := false }, [], [])
  else if r ≤ 0 then (s, [], [.waitEdgeEvents 0])
  else (s, dispatchEvents (pending.take 16) s.callbacks,
        [.waitEdgeEvents 0, .readEdgeEvents 16])

theorem dispatchEvents_filter (events : List EdgeEvent) (cbs : List CallbackSpec)
    (p : Invocation → Bool) :
    (dispatchEvents events cbs).filter p =
      events.flatMap fun e => (cbs.map (invokeCallback e)).filter p := by
  induction events with
  | nil => rfl
  | cons e es ih =>
    simp only [dispatchEvents, List.flatMap_cons, List.filter_append] at *
    rw [ih]

theorem filter_invoke_of_not_mem (e : EdgeEvent) (cbs : List CallbackSpec) (n : ℕ)
    (h : ∀ c2 ∈ cbs, c2.id ≠ n) :
    (cbs.map (invokeCallback e)).filter (fun i => i.cb == n) = [] := by
  induction cbs with
  | nil => rfl
  | cons c0 rest ih =>
    have h0 : c0.id ≠ n := h c0 (List.mem_cons_self c0 rest)
    simp only [List.map_cons, List.filter_cons, invokeCallback]
    rw [if_neg (by simpa using h0)]
    exact ih fun c2 hc2 => h c2 (List.mem_cons_of_mem c0 hc2)

theorem filter_invoke_single (e : EdgeEvent) (cbs : List CallbackSpec)
    (c : CallbackSpec) (hc : c ∈ cbs) (hnodup : (cbs.map CallbackSpec.id).Nodup) :
    (cbs.map (invokeCallback e)).filter (fun i => i.cb == c.id) = [invokeCallback e c] := by
  induction cbs with
  | nil => cases hc
  | cons c0 rest ih =>
    simp only [List.map_cons, List.nodup_cons] at hnodup
    rcases List.mem_cons.mp hc with rfl | hmem
    · simp only [List.map_cons, List.filter_cons, invokeCallback]
      rw [if_pos (by simp)]
      have : (rest.map (invokeCallback e)).filter (fun i => i.cb == c.id) = [] := by
        refine filter_invoke_of_not_mem e rest c.id fun c2 hc2 h2 => ?_
        exact hnodup.1 (h2 ▸ List.mem_map_of_mem CallbackSpec.id hc2)
      rw [this]
    · have hne : c0.id ≠ c.id := fun h2 =>
        hnodup.1 (h2 ▸ List.mem_map_of_mem CallbackSpec.id hmem)
      simp only [List.map_cons, List.filter_cons, invokeCallback]
      rw [if_neg (by simpa using hne)]
      exact ih hmem hnodup.2

theorem dispatchEvents_filter_single (events : List EdgeEvent) (cbs : List CallbackSpec)
    (c : CallbackSpec) (hc : c ∈ cbs) (hnodup : (cbs.map CallbackSpec.id).Nodup) :
    (dispatchEvents events cbs).filter (fun i => i.cb == c.id) =
      events.map (fun e => invokeCallback e c) := by
  rw [dispatchEvents_filter]
  induction events with
  | nil => rfl
  | cons e es ih =>
    simp only [List.flatMap_cons, List.map_cons]
    rw [filter_invoke_single e cbs c hc hnodup, ih]
    rfl

theorem dispatchEvents_filter_none (events : List EdgeEvent) (cbs : List CallbackSpec)
    (n : ℕ) (h : ∀ c2 ∈ cbs, c2.id ≠ n) :
    (dispatchEvents events cbs).filter (fun i => i.cb == n) = [] := by
  rw [dispatchEvents_filter]
  induction events with
  | nil => rfl
  | cons e es ih =>
    simp only [List.flatMap_cons]
    rw [filter_invoke_of_not_mem e cbs n h, ih]
    rfl

theorem dispatchEvents_length (events : List EdgeEvent) (cbs : List CallbackSpec) :
    (dispatchEvents events cbs).length = events.length * cbs.length := by
  induction events with
  | nil => simp [dispatchEvents]
  | cons e es ih =>
    simp only [dispatchEvents, List.flatMap_cons, List.length_append,
      List.length_map, List.length_cons] at *
    rw [ih]; ring

/-- C10: in the edge-callback dispatch loop, a poll tick on an open input
with callbacks and a positive wait result dispatches every drained event to
every registered callback in registration order; each callback with a unique
id receives every event exactly once, in event order, regardless of which
callback bodies raise (a raising callback is caught and stops nothing, so the
invocation count is always `#events * #callbacks`); removing one callback
(`offEdge`) stops further delivery to it only — the remaining callbacks'
deliveries are unchanged. -/
theorem edge_dispatch_fanout (events : List EdgeEvent) (cbs : List CallbackSpec)
    (c : CallbackSpec) (hc : c ∈ cbs) (hnodup : (cbs.map CallbackSpec.id).Nodup)
    (s : GPIOInputState) (hopen : s.closed = false) (hcbs : s.callbacks = cbs)
    (hne : cbs ≠ []) (r : ℤ) (hr : 0 < r) (hlen : events.length ≤ 16) :
    (pollTick r events s).2.1 = dispatchEvents events cbs ∧
    (dispatchEvents events cbs).filter (fun i => i.cb == c.id) =
      events.map (fun e => invokeCallback e c) ∧
    (dispatchEvents events cbs).length = events.length * cbs.length ∧
    ((dispatchEvents events
        (((inputOffEdge c s).1.toOption.map GPIOInputState.callbacks).getD [])).filter
      (fun i => i.cb == c.id) = []) ∧
    (∀ c2 ∈ cbs, c2 ≠ c →
      (dispatchEvents events (cbs.erase c)).filter (fun i => i.cb == c2.id) =
        (dispatchEvents events cbs).filter (fun i => i.cb == c2.id)) := by
  have hcbsnodup : cbs.Nodup := hnodup.of_map
  have herase_sub : ∀ c2 ∈ cbs.erase c, c2 ∈ cbs := fun c2 h => List.erase_subset c cbs h
  refine ⟨?_, dispatchEvents_filter_single events cbs c hc hnodup,
    dispatchEvents_length events cbs, ?_, ?_⟩
  · simp [pollTick, hopen, hcbs, hne, not_le.mpr hr, List.take_of_length_le hlen]
  · have hoff : ((inputOffEdge c s).1.toOption.map GPIOInputState.callbacks).getD [] =
        cbs.erase c := by
      simp [inputOffEdge, Except.toOption, hcbs]
    rw [hoff]
    have hnone : ∀ c2 ∈ cbs.erase c, c2.id ≠ c.id := by
      intro c2 h2 hid
      have hc2 : c2 ∈ cbs := herase_sub c2 h2
      have : c2 = c := List.inj_on_of_nodup_map hnodup hc2 hc hid
      exact (List.Nodup.not_mem_erase hcbsnodup) (this ▸ h2)
    exact dispatchEvents_filter_none events (cbs.erase c) c.id hnone
  · intro c2 h2 hne2
    have h2e : c2 ∈ cbs.erase c := (List.mem_erase_of_ne hne2).mpr h2
    have hnodupe : ((cbs.erase c).map CallbackSpec.id).Nodup :=
      ((cbs.erase_sublist c).map CallbackSpec.id).nodup hnodup
    rw [dispatchEvents_filter_single events (cbs.erase c) c2 h2e hnodupe,
      dispatchEvents_filter_single events cbs c2 h2 hnodup]

/-- A concrete edge event with timestamp and sequence `n`. -/
def eventAt (n : ℤ) : EdgeEvent :=
  { rising := true, timestampNs := n, pin := 27, sequence := n }

/-- Three concrete edge events in order. -/
def threeEvents : List EdgeEvent := [eventAt 1, eventAt 2, eventAt 3]

/-- A callback that raises on every one of the three events. -/
def cbThrowing : CallbackSpec := { id := 1, throwsOn := threeEvents }

/-- A callback that never raises. -/
def cbQuiet : CallbackSpec := { id := 2, throwsOn := [] }

/-- The two registered callbacks, in registration order. -/
def twoCallbacks : List CallbackSpec := [cbThrowing, cbQuiet]

/-- An open input with both callbacks registered and the poll running. -/
def inputListening : GPIOInputState :=
  { pin := 27, edge := .rising, closed := false, hasBuffer := true,
    callbacks := twoCallbacks, polling := true }

/-- Witness for C10: with two callbacks (the first raising on every event)
and three generated events, each callback is invoked exactly three times in
event order (6 invocations in total), and removing the raising callback
leaves the other's deliveries unchanged. -/
theorem edge_dispatch_fanout_witness :
    (dispatchEvents threeEvents twoCallbacks).filter (fun i => i.cb == 1) =
      threeEvents.map (fun e => invokeCallback e cbThrowing) ∧
    (dispatchEvents threeEvents twoCallbacks).length = 6 ∧
    (dispatchEvents threeEvents (twoCallbacks.erase cbThrowing)).filter
        (fun i => i.cb == 2) =
      (dispatchEvents threeEvents twoCallbacks).filter (fun i => i.cb == 2) := by
  have h := edge_dispatch_fanout threeEvents twoCallbacks cbThrowing (by decide)
    (by decide) inputListening rfl rfl (by decide) 5 (by decide) (by decide)
  refine ⟨h.2.1, ?_, h.2.2.2.2 cbQuiet (by decide) (by decide)⟩
  rw [h.2.2.1]
  rfl

/-! ## PWM channel acquisition (`pwm.ts`, `PWM.channel`) -/

/-- State of a `PWM` controller: closed flag and the channel indices
currently tracked in its `channels` map. -/
structure PWMChipModel where
  closed : Bool
  channels : List ℕ
  deriving DecidableEq, Repr

/-- A successful write to one of the chip's sysfs control files. -/
inductive SysWrite
  | exportW (n : ℕ)
  | unexportW (n : ℕ)
  | periodW (v : ℤ)
  | dutyW (v : ℤ)
  | enableW (v : ℤ)
  deriving DecidableEq, Repr

/-- The sysfs environment an acquisition runs against: whether the write to
the `export` file succeeds, whether the channel directory exists after `t`
10 ms sleeps of the directory wait, and whether the `period` file is
writable after `t` 20 ms sleeps of the permission wait. -/
structure SysfsEnv where
  exportWriteOk : Bool
  dirExists : ℕ → Bool
  periodWritable : ℕ → Bool

/-- Bounded retry loop: return the poll instant at which `p` first holds,
advancing one sleep per failed attempt, stopping after `fuel` sleeps (the
returned instant equals the attempt count that was reached). -/
def waitLoop (p : ℕ → Bool) : ℕ → ℕ → ℕ
  | 0, t => t
  | fuel + 1, t => if p t then t else waitLoop p fuel (t + 1)

/-- The shared tail of `PWM.channel` after export has been settled: wait up
to 50 × 20 ms for the `period` file to become writable, then write period,
derived duty-in-nanoseconds and `enable := 1` in that order, and track the
channel.  `pre` is the trace accumulated by the export phase. -/
def pwmConfigure (chip : PWMChipModel) (channel : ℕ) (frequencyHz dutyCycle : ℚ)
    (env : SysfsEnv) (pre : List SysWrite) :
    Except Err (PWMChipModel × PWMChannelModel) × List SysWrite :=
  let periodNs := jsRound (1000000000 / frequencyHz)
  let tPerm := waitLoop env.periodWritable 50 0
  if tPerm < 50 then
    (.ok ({ chip with channels := channel :: chip.channels },
          channelInitState channel frequencyHz dutyCycle),
     pre ++ [SysWrite.periodW periodNs,
             SysWrite.dutyW (jsRound ((periodNs : ℚ) * dutyCycle)),
             SysWrite.enableW 1])
  else (.error (.permissionDenied channel), pre)

/-- `PWM.channel(channel, options)`: check the controller, reject an index
already tracked in-process, validate frequency and duty, then export.  If
the export write fails but the channel directory already exists, treat the
channel as exported by a prior actor and continue; if it fails and the
directory is absent, fail with the export error.  A fresh export waits up to
10 × 10 ms for the directory to materialise (on timeout: best-effort
unexport, then fail).  Finally run the shared configuration tail. -/
def pwmAcquire (chip : PWMChipModel) (channel : ℕ) (frequencyHz dutyCycle : ℚ)
    (env : SysfsEnv) : Except Err (PWMChipModel × PWMChannelModel) × List SysWrite :=
  if chip.closed then (.error .controllerClosed, [])
  else if channel ∈ chip.channels then (.error (.channelInUse channel), [])
  else if frequencyHz ≤ 0 then (.error .invalidParameter, [])
  else if dutyCycle < 0 ∨ 1 < dutyCycle then (.error .invalidParameter, [])
  else if env.exportWriteOk then
    let tDir := waitLoop env.dirExists 10 0
    if env.dirExists tDir then
      pwmConfigure chip channel frequencyHz dutyCycle env [SysWrite.exportW channel]
    else
      (.error (.exportTimeout channel),
       [SysWrite.exportW channel, SysWrite.unexportW channel])
  else if env.dirExists 0 then
    pwmConfigure chip channel frequencyHz dutyCycle env []
  else (.error (.exportFailed channel), [])

/-- C9: when the write to the export control file fails but the channel's
control directory already exists, acquisition does not fail — it proceeds to
configuration (period, duty, enable are written and the channel is tracked);
when the write fails and the directory does not exist, acquisition fails
with the export error. -/
theorem pwm_idempotent_export (chip : PWMChipModel) (channel : ℕ) (f r : ℚ)
    (env : SysfsEnv) (hopen : chip.closed = false) (hfree : channel ∉ chip.channels)
    (hf : 0 < f) (hr0 : 0 ≤ r) (hr1 : r ≤ 1) (hwfail : env.exportWriteOk = false)
    (hperm : env.periodWritable 0 = true) :
    (env.dirExists 0 = true →
      pwmAcquire chip channel f r env =
        (.ok ({ chip with channels := channel :: chip.channels },
              channelInitState channel f r),
         [SysWrite.periodW (jsRound (1000000000 / f)),
          SysWrite.dutyW (jsRound ((jsRound (1000000000 / f) : ℚ) * r)),
          SysWrite.enableW 1])) ∧
    (env.dirExists 0 = false →
      pwmAcquire chip channel f r env = (.error (.exportFailed channel), [])) := by
  have hnf : ¬f ≤ 0 := not_le.mpr hf
  have hnr : ¬(r < 0 ∨ 1 < r) := by
    push_neg
    exact ⟨hr0, hr1⟩
  have hloop : waitLoop env.periodWritable 50 0 = 0 := by
    simp [waitLoop, hperm]
  constructor
  · intro hdir
    simp [pwmAcquire, hopen, hfree, hnf, hnr, hwfail, hdir, pwmConfigure, hloop]
  · intro hdir
    simp [pwmAcquire, hopen, hfree, hnf, hnr, hwfail, hdir]

/-- Witness for C9: on a fresh chip at 1000 Hz / duty 1/2 against an
environment whose export write fails, acquisition succeeds when the channel
directory pre-exists (writing period 1000000, duty 500000, enable 1, and no
export write), and fails with the export error when it does not. -/
theorem pwm_idempotent_export_witness :
    pwmAcquire { closed := false, channels := [] } 0 1000 (1/2)
        { exportWriteOk := false, dirExists := fun _ => true,
          periodWritable := fun _ => true } =
      (.ok ({ closed := false, channels := [0] }, channelInitState 0 1000 (1/2)),
       [SysWrite.periodW (jsRound (1000000000 / 1000)),
        SysWrite.dutyW (jsRound ((jsRound ((1000000000 : ℚ) / 1000) : ℚ) * (1/2))),
        SysWrite.enableW 1]) ∧
    pwmAcquire { closed := false, channels := [] } 0 1000 (1/2)
        { exportWriteOk := false, dirExists := fun _ => false,
          periodWritable := fun _ => true } =
      (.error (.exportFailed 0), []) :=
  ⟨(pwm_idempotent_export { closed := false, channels := [] } 0 1000 (1/2) _
      rfl (by decide) (by norm_num) (by norm_num) (by norm_num) rfl rfl).1 rfl,
   (pwm_idempotent_export { closed := false, channels := [] } 0 1000 (1/2) _
      rfl (by decide) (by norm_num) (by norm_num) (by norm_num) rfl rfl).2 rfl⟩

end Hallonbullar
